import Mathlib

/-!
Verification of the vimcord template's dispatch-core and schema-store
behavior, as described by the repository's documentation.  The template's
own source (guild schema declaration, guild prefix resolver, ping-command
permission spec) is embedded directly; the framework components it invokes
(rate limiter, permission evaluator, config merger, schema store CRUD and
transactions, event dispatcher) are not shipped in the repository, so they
are modelled from the specification's words, as marked on each definition.
-/

namespace Vimcord

/-! ## Rate limiter -/

/-- Result of a rate-limit acquisition attempt. -/
inductive RLResult where
  | admitted : RLResult
  | denied : Nat → RLResult
deriving DecidableEq

/-- A rate-limit bucket: window-start timestamp and rolling counter. -/
structure Bucket where
  windowStart : Nat
  count : Nat
deriving DecidableEq

/-- Modelled from the spec: `tryAcquire` for one `(definitionId, scope,
scopeKey)` bucket (the bucket itself is passed explicitly; `none` means the
bucket does not exist yet).  Fixed window: on first hit in a window record
`windowStart = now`, `count = 1`; a hit within `intervalMs` of `windowStart`
increments `count` and is denied with `retryAfterMs = windowStart +
intervalMs - now` when `count > max`; once `now - windowStart >= intervalMs`
the bucket resets and the hit is admitted. -/
def tryAcquire (b : Option Bucket) (now mx intervalMs : Nat) :
    RLResult × Bucket :=
  match b with
  | none => (RLResult.admitted, ⟨now, 1⟩)
  | some bk =>
    if intervalMs ≤ now - bk.windowStart then
      (RLResult.admitted, ⟨now, 1⟩)
    else
      let c := bk.count + 1
      if mx < c then
        (RLResult.denied (bk.windowStart + intervalMs - now), ⟨bk.windowStart, c⟩)
      else
        (RLResult.admitted, ⟨bk.windowStart, c⟩)

/-- Run a sequence of hits (given by their timestamps) against one bucket,
threading the bucket state, and collect the per-hit results. -/
def runHits (b : Option Bucket) (times : List Nat) (mx intervalMs : Nat) :
    List RLResult × Option Bucket :=
  match times with
  | [] => ([], b)
  | t :: ts =>
    let r := tryAcquire b t mx intervalMs
    let rest := runHits (some r.2) ts mx intervalMs
    (r.1 :: rest.1, rest.2)

/-- Number of admitted results in a list of rate-limit outcomes. -/
def admittedCount (rs : List RLResult) : Nat :=
  rs.countP (fun r => r = RLResult.admitted)

theorem runHits_cons (b : Option Bucket) (t : Nat) (ts : List Nat)
    (mx intervalMs : Nat) :
    runHits b (t :: ts) mx intervalMs =
      ((tryAcquire b t mx intervalMs).1 ::
        (runHits (some (tryAcquire b t mx intervalMs).2) ts mx intervalMs).1,
       (runHits (some (tryAcquire b t mx intervalMs).2) ts mx intervalMs).2) := by
  simp [runHits]

/-- Within one window (every hit lands strictly before `windowStart +
intervalMs`), starting from a bucket with counter `c ≥ 1`, the number of
admitted hits is exactly `min (number of hits) (mx - c)`. -/
theorem admittedCount_inWindow (mx intervalMs ws : Nat) :
    ∀ (ts : List Nat) (c : Nat), 1 ≤ c →
      (∀ t ∈ ts, t - ws < intervalMs) →
      admittedCount (runHits (some ⟨ws, c⟩) ts mx intervalMs).1 =
        min ts.length (mx - c) := by
  intro ts
  induction ts with
  | nil => intro c _ _; simp [runHits, admittedCount]
  | cons t ts ih =>
    intro c hc hin
    have ht : t - ws < intervalMs := hin t (List.mem_cons_self t ts)
    have hts : ∀ u ∈ ts, u - ws < intervalMs := fun u hu => hin u (List.mem_cons_of_mem t hu)
    rw [runHits_cons]
    have hacq : tryAcquire (some ⟨ws, c⟩) t mx intervalMs =
        (if mx < c + 1 then RLResult.denied (ws + intervalMs - t)
         else RLResult.admitted, ⟨ws, c + 1⟩) := by
      simp only [tryAcquire]
      rw [if_neg (by omega)]
      by_cases hmx : mx < c + 1
      · rw [if_pos hmx, if_pos hmx]
      · rw [if_neg hmx, if_neg hmx]
    rw [hacq]
    have hrec := ih (c + 1) (by omega) hts
    by_cases hmx : mx < c + 1
    · rw [if_pos hmx]
      simp only [admittedCount, List.countP_cons] at *
      rw [hrec]
      simp only [List.length_cons]
      have : (mx - c) = 0 := by omega
      have h2 : (mx - (c + 1)) = 0 := by omega
      rw [this, h2]
      simp [decide_eq_true_eq]
    · rw [if_neg hmx]
      simp only [admittedCount, List.countP_cons] at *
      rw [hrec]
      simp only [List.length_cons, decide_eq_true_eq]
      have : min ts.length (mx - (c + 1)) + 1 = min (ts.length + 1) (mx - c) := by
        omega
      simpa using this

/-- C1: fixed-window rate limiting.  First hit in a window sets
`windowStart = now`, `count = 1` and is admitted; a later hit within
`intervalMs` of `windowStart` increments `count` and is denied with
`retryAfterMs = windowStart + intervalMs - now` exactly when `count > max`;
once `now - windowStart ≥ intervalMs` the bucket resets and the hit is
admitted; provided `max ≥ 1`, the number of admitted hits within one window
never exceeds `max`; and with `max = 3`, `interval = 60000` ms, four hits by
the same user at times 0, 300, 600 and 1000 ms yield Admitted, Admitted,
Admitted, then Denied with `retryAfterMs = 59000`. -/
theorem rateLimit_fixedWindow :
    (∀ now mx intervalMs,
        tryAcquire none now mx intervalMs = (RLResult.admitted, ⟨now, 1⟩)) ∧
    (∀ ws c now mx intervalMs, now - ws < intervalMs →
        tryAcquire (some ⟨ws, c⟩) now mx intervalMs =
          ((if mx < c + 1 then RLResult.denied (ws + intervalMs - now)
            else RLResult.admitted), ⟨ws, c + 1⟩)) ∧
    (∀ ws c now mx intervalMs, intervalMs ≤ now - ws →
        tryAcquire (some ⟨ws, c⟩) now mx intervalMs =
          (RLResult.admitted, ⟨now, 1⟩)) ∧
    (∀ (t0 : Nat) (ts : List Nat) (mx intervalMs : Nat), 1 ≤ mx →
        (∀ t ∈ ts, t - t0 < intervalMs) →
        admittedCount (runHits none (t0 :: ts) mx intervalMs).1 ≤ mx) ∧
    runHits none [0, 300, 600, 1000] 3 60000 =
      ([RLResult.admitted, RLResult.admitted, RLResult.admitted,
        RLResult.denied 59000], some ⟨0, 4⟩) := by
  refine ⟨fun now mx intervalMs => rfl, ?_, ?_, ?_, by decide⟩
  · intro ws c now mx intervalMs h
    simp only [tryAcquire]
    rw [if_neg (by omega)]
    by_cases hmx : mx < c + 1
    · rw [if_pos hmx, if_pos hmx]
    · rw [if_neg hmx, if_neg hmx]
  · intro ws c now mx intervalMs h
    simp only [tryAcquire]
    rw [if_pos h]
  · intro t0 ts mx intervalMs hmx hin
    rw [runHits_cons]
    have hacq : tryAcquire none t0 mx intervalMs = (RLResult.admitted, ⟨t0, 1⟩) := rfl
    rw [hacq]
    simp only [admittedCount, List.countP_cons, decide_eq_true_eq]
    have := admittedCount_inWindow mx intervalMs t0 ts 1 (by omega) hin
    simp only [admittedCount] at this
    rw [this]
    simp only [if_true]
    omega

/-- C1 counterexample: with `max = 0` the very first hit of a window is
still admitted, so one hit within one window already yields more admitted
hits than `max` — the unrestricted bound fails at `max = 0`. -/
theorem rateLimit_fixedWindow_cex :
    ¬ admittedCount (runHits none [0] 0 60000).1 ≤ 0 := by decide

/-- C1 witness: the amended bound and the window-reset equation applied at
concrete inputs. -/
theorem rateLimit_fixedWindow_witness :
    admittedCount (runHits none (0 :: [300, 600, 1000]) 3 60000).1 ≤ 3 ∧
    tryAcquire (some ⟨0, 3⟩) 60500 3 60000 = (RLResult.admitted, ⟨60500, 1⟩) :=
  ⟨rateLimit_fixedWindow.2.2.2.1 0 [300, 600, 1000] 3 60000 (by decide)
      (by decide),
   rateLimit_fixedWindow.2.2.1 0 3 60500 3 60000 (by decide)⟩

/-! ## Schema store: the template's Guilds schema -/

/-- A Guilds document, from the template's `IGuild` interface.  The
source's `prefix` field is embedded under the name `prefixVal`. -/
structure Guild where
  guildId : String
  prefixVal : Option String
  createdAt : Nat
deriving DecidableEq

/-- The live documents of the Guilds collection. -/
abbrev Store := List Guild

/-- The document created on upsert for filter `{guildId}`, filled with the
schema's declared defaults (`prefix` defaults to null, `createdAt` defaults
to `Date.now`, passed here as `now`). -/
def defaultGuild (gid : String) (now : Nat) : Guild := ⟨gid, none, now⟩

/-- From `GuildSchema`: `guildId` is declared `unique: true`; a new
document collides when a live document carries the same `guildId`. -/
def guildIdCollides (s : Store) (d : Guild) : Bool :=
  s.any (fun e => e.guildId == d.guildId)

/-- From `GuildSchema.execute`: compound unique index on
`(guildId, prefix)`. -/
def compoundCollides (s : Store) (d : Guild) : Bool :=
  s.any (fun e => e.guildId == d.guildId && e.prefixVal == d.prefixVal)

inductive StoreErr where
  | uniqueConstraintViolation : StoreErr
deriving DecidableEq

/-- Modelled from the spec: inserting one document of a `create` call;
fails with `UniqueConstraintViolation` if any unique field collides with an
existing document. -/
def createOne (s : Store) (d : Guild) : Except StoreErr Store :=
  if guildIdCollides s d || compoundCollides s d then
    Except.error StoreErr.uniqueConstraintViolation
  else
    Except.ok (s ++ [d])

/-- Modelled from the spec: `create(documents[])`, inserting documents in
order and failing on the first unique-field collision. -/
def create (s : Store) (ds : List Guild) : Except StoreErr Store :=
  match ds with
  | [] => Except.ok s
  | d :: rest =>
    match createOne s d with
    | Except.ok s' => create s' rest
    | Except.error e => Except.error e

/-- Modelled from the spec: `fetch(filter, projection?, opts?)` for the
filter `{guildId}`: returns the first matching document, or `null` (here
`none`) when none matches; with `opts.upsert` it instead creates a default
document matching the filter and returns it.  The store after the call is
returned alongside. -/
def fetch (s : Store) (gid : String) (upsert : Bool) (now : Nat) :
    Option Guild × Store :=
  match s.find? (fun d => d.guildId == gid) with
  | some d => (some d, s)
  | none =>
    if upsert then (some (defaultGuild gid now), s ++ [defaultGuild gid now])
    else (none, s)

/-- Number of live documents whose `guildId` equals `gid`: the candidate
set of `fetch {guildId := gid}`. -/
def countId (s : Store) (gid : String) : Nat :=
  s.countP (fun d => d.guildId == gid)

/-- Operations on the Guilds collection reachable through the schema:
`create` (unique-checked), updating a guild's stored `prefix` value
(`update({guildId}, {$set: {prefix}})`), and deleting by `guildId`.  A
constraint violation leaves the store unchanged. -/
inductive GOp where
  | opCreate : List Guild → GOp
  | opSetPrefixVal : String → Option String → GOp
  | opDelete : String → GOp

def applyGOp (s : Store) (op : GOp) : Store :=
  match op with
  | GOp.opCreate ds =>
    match create s ds with
    | Except.ok s' => s'
    | Except.error _ => s
  | GOp.opSetPrefixVal gid p =>
    s.map (fun d => if d.guildId == gid then { d with prefixVal := p } else d)
  | GOp.opDelete gid => s.filter (fun d => !(d.guildId == gid))

/-- The store produced by a sequence of schema operations starting from the
empty collection. -/
def reach (ops : List GOp) : Store := ops.foldl applyGOp []

theorem countId_append (s1 s2 : Store) (gid : String) :
    countId (s1 ++ s2) gid = countId s1 gid + countId s2 gid := by
  simp [countId, List.countP_append]

/-- The uniqueness invariant: each `guildId` value appears in at most one
live document. -/
def UniqueIds (s : Store) : Prop := ∀ gid, countId s gid ≤ 1

theorem createOne_preserves {s : Store} {d : Guild} {s' : Store}
    (hinv : UniqueIds s) (h : createOne s d = Except.ok s') : UniqueIds s' := by
  by_cases hc : (guildIdCollides s d || compoundCollides s d) = true
  · simp [createOne, hc] at h
  · have hs' : s' = s ++ [d] := by
      simp only [createOne] at h
      rw [if_neg hc] at h
      exact (Except.ok.inj h).symm
    have hg : guildIdCollides s d = false := by
      cases hgc : guildIdCollides s d with
      | false => rfl
      | true => simp [hgc] at hc
    have hz : countId s d.guildId = 0 := by
      simp only [guildIdCollides, List.any_eq_false] at hg
      simp only [countId]
      apply List.countP_eq_zero.mpr
      intro e he
      exact hg e he
    intro gid
    rw [hs', countId_append]
    by_cases hgid : gid = d.guildId
    · subst hgid
      rw [hz]
      simp [countId, List.countP_cons]
    · have : countId [d] gid = 0 := by
        simp only [countId, List.countP_cons, List.countP_nil]
        have : (d.guildId == gid) = false := by
          simp only [beq_eq_false_iff_ne, ne_eq]
          intro h2; exact hgid h2.symm
        simp [this]
      rw [this]
      simpa using hinv gid

theorem create_preserves {ds : List Guild} :
    ∀ {s s' : Store}, UniqueIds s → create s ds = Except.ok s' → UniqueIds s' := by
  induction ds with
  | nil =>
    intro s s' hinv h
    simp only [create] at h
    exact (Except.ok.inj h) ▸ hinv
  | cons d rest ih =>
    intro s s' hinv h
    simp only [create] at h
    cases h1 : createOne s d with
    | ok s1 =>
      rw [h1] at h
      exact ih (createOne_preserves hinv h1) h
    | error e =>
      rw [h1] at h
      exact absurd h (by simp)

theorem applyGOp_preserves {s : Store} (hinv : UniqueIds s) (op : GOp) :
    UniqueIds (applyGOp s op) := by
  cases op with
  | opCreate ds =>
    simp only [applyGOp]
    cases h : create s ds with
    | ok s' => exact create_preserves hinv h
    | error e => exact hinv
  | opSetPrefixVal gid p =>
    intro g
    simp only [applyGOp, countId, List.countP_map]
    have hcongr : ∀ d ∈ s,
        (((fun d => d.guildId == g) ∘
          (fun d => if d.guildId == gid then { d with prefixVal := p } else d)) d = true ↔
        ((fun d : Guild => d.guildId == g) d = true)) := by
      intro d _
      by_cases hd : (d.guildId == gid) = true
      · simp [Function.comp, hd]
      · simp [Function.comp, hd]
    rw [List.countP_congr hcongr]
    exact hinv g
  | opDelete gid =>
    intro g
    simp only [applyGOp, countId]
    calc (s.filter (fun d => !(d.guildId == gid))).countP (fun d => d.guildId == g)
        ≤ s.countP (fun d => d.guildId == g) := by
          rw [List.countP_filter]
          exact List.countP_mono_left (by intro a _ h; exact (Bool.and_elim_left h))
      _ ≤ 1 := hinv g

theorem foldl_applyGOp_preserves (ops : List GOp) :
    ∀ s : Store, UniqueIds s → UniqueIds (ops.foldl applyGOp s) := by
  induction ops with
  | nil => intro s h; exact h
  | cons op rest ih =>
    intro s h
    exact ih _ (applyGOp_preserves h op)

/-- C9: in every store reachable through the schema's operations starting
from the empty Guilds collection, each `guildId` value appears in at most
one live document, so `fetch {guildId}` has at most one candidate. -/
theorem guildId_unique_invariant (ops : List GOp) (gid : String) :
    countId (reach ops) gid ≤ 1 := by
  refine foldl_applyGOp_preserves ops [] ?_ gid
  intro g
  simp [countId]

/-- C3: two `create` calls whose documents carry equal values for the
unique-indexed `guildId` field never both succeed: if the first succeeds,
the second fails with the typed `UniqueConstraintViolation` error, and a
successful `create` never leaves two live documents sharing a `guildId`. -/
theorem create_unique_never_both (s : Store) (d1 d2 : Guild) (s1 : Store)
    (heq : d1.guildId = d2.guildId)
    (h1 : create s [d1] = Except.ok s1) :
    create s1 [d2] = Except.error StoreErr.uniqueConstraintViolation ∧
    (UniqueIds s → UniqueIds s1) := by
  have hone : createOne s d1 = Except.ok s1 := by
    simp only [create] at h1
    cases h : createOne s d1 with
    | ok s' =>
      rw [h] at h1
      simp only [create] at h1
      exact h1
    | error e =>
      rw [h] at h1
      exact absurd h1 (by simp)
  constructor
  · have hs1 : s1 = s ++ [d1] := by
      by_cases hc : (guildIdCollides s d1 || compoundCollides s d1) = true
      · simp [createOne, hc] at hone
      · simp only [createOne] at hone
        rw [if_neg hc] at hone
        exact (Except.ok.inj hone).symm
    have hcol : guildIdCollides s1 d2 = true := by
      simp only [guildIdCollides, List.any_eq_true]
      exact ⟨d1, by rw [hs1]; simp, by simp [heq]⟩
    simp [create, createOne, hcol]
  · intro hinv
    exact createOne_preserves hinv hone

/-- C3 witness: on the empty store, creating a document for guild "g1" and
then creating another document with the same `guildId` fails with
`UniqueConstraintViolation`. -/
theorem create_unique_never_both_witness :
    create [⟨"g1", none, 0⟩] [⟨"g1", some "?", 5⟩] =
      Except.error StoreErr.uniqueConstraintViolation :=
  (create_unique_never_both [] ⟨"g1", none, 0⟩ ⟨"g1", some "?", 5⟩
    [⟨"g1", none, 0⟩] rfl rfl).1

/-- C7: for the filter `{guildId}`, `fetch` returns `null` (not an error)
when no document matches; and with `opts.upsert = true` on a store with no
matching document it creates a default document matching the filter and
returns that document.  In particular `fetch {userId-like filter}` on an
empty store returns `null`, and the upsert variant returns the newly
created default document. -/
theorem fetch_missing_null_upsert :
    (∀ (s : Store) (gid : String) (now : Nat),
        s.find? (fun d => d.guildId == gid) = none →
        fetch s gid false now = (none, s)) ∧
    (∀ (s : Store) (gid : String) (now : Nat),
        s.find? (fun d => d.guildId == gid) = none →
        fetch s gid true now =
          (some (defaultGuild gid now), s ++ [defaultGuild gid now]) ∧
        (defaultGuild gid now).guildId = gid) ∧
    fetch [] "123" false 0 = (none, []) ∧
    (fetch [] "123" true 7).1 = some (defaultGuild "123" 7) := by
  refine ⟨?_, ?_, by decide, by decide⟩
  · intro s gid now h
    simp [fetch, h]
  · intro s gid now h
    exact ⟨by simp [fetch, h], rfl⟩

/-- C7 witness: the two general clauses applied on a concrete one-document
store that does not match the filter. -/
theorem fetch_missing_null_upsert_witness :
    fetch [⟨"g9", none, 0⟩] "123" false 3 = (none, [⟨"g9", none, 0⟩]) ∧
    fetch [⟨"g9", none, 0⟩] "123" true 3 =
      (some (defaultGuild "123" 3), [⟨"g9", none, 0⟩] ++ [defaultGuild "123" 3]) :=
  ⟨fetch_missing_null_upsert.1 [⟨"g9", none, 0⟩] "123" 3 (by decide),
   (fetch_missing_null_upsert.2.1 [⟨"g9", none, 0⟩] "123" 3 (by decide)).1⟩

/-! ## The template's guild prefix resolver -/

/-- From the template's `vimcordConfigOptions`:
`prefixCommands.defaultPrefix` is the string `"!"`. -/
def templateDefaultPrefix : String := "!"

/-- The template's `guildPrefixResolver`: fetches the guild's document with
filter `{ guildId }` and projection `{ _id: 0, prefix: 1 }`, no options (in
particular no upsert), and returns `guildData?.prefix`.  The outer `none`
is JavaScript `undefined` (no document); `some p` is a found document whose
stored prefix field is `p` (possibly the stored `null`). -/
def guildPrefixResolver (s : Store) (gid : String) :
    Option (Option String) × Store :=
  let r := fetch s gid false 0
  (Option.map Guild.prefixVal r.1, r.2)

/-- Modelled from the spec: the framework falls back to the configured
`defaultPrefix` when the resolver yields no prefix value for the guild. -/
def effectivePrefixFor (s : Store) (gid : String) : String :=
  match (guildPrefixResolver s gid).1 with
  | some (some p) => p
  | _ => templateDefaultPrefix

/-- C10: the resolver returns the stored prefix field of the guild's
document when one exists (possibly the stored `null`), returns `undefined`
(`none`) when none exists, never modifies the store (no upsert), and a
guild without a stored document falls back to the configured default
prefix `"!"`. -/
theorem guildPrefixResolver_spec :
    (∀ (s : Store) (gid : String) (d : Guild),
        s.find? (fun e => e.guildId == gid) = some d →
        guildPrefixResolver s gid = (some d.prefixVal, s)) ∧
    (∀ (s : Store) (gid : String),
        s.find? (fun e => e.guildId == gid) = none →
        guildPrefixResolver s gid = (none, s)) ∧
    (∀ (s : Store) (gid : String), (guildPrefixResolver s gid).2 = s) ∧
    (∀ (s : Store) (gid : String),
        s.find? (fun e => e.guildId == gid) = none →
        effectivePrefixFor s gid = templateDefaultPrefix) ∧
    templateDefaultPrefix = "!" := by
  refine ⟨?_, ?_, ?_, ?_, rfl⟩
  · intro s gid d h
    simp [guildPrefixResolver, fetch, h]
  · intro s gid h
    simp [guildPrefixResolver, fetch, h]
  · intro s gid
    simp only [guildPrefixResolver, fetch]
    cases h : s.find? (fun d => d.guildId == gid) with
    | some d => simp
    | none => simp
  · intro s gid h
    simp [effectivePrefixFor, guildPrefixResolver, fetch, h]

/-- C10 witness: on a store holding a document for guild "g1" with stored
prefix null and a document for guild "g2" with stored prefix "?", the
resolver returns the stored values, and an absent guild "g3" falls back to
"!". -/
theorem guildPrefixResolver_spec_witness :
    guildPrefixResolver [⟨"g1", none, 0⟩, ⟨"g2", some "?", 0⟩] "g1" =
      (some none, [⟨"g1", none, 0⟩, ⟨"g2", some "?", 0⟩]) ∧
    guildPrefixResolver [⟨"g1", none, 0⟩, ⟨"g2", some "?", 0⟩] "g3" =
      (none, [⟨"g1", none, 0⟩, ⟨"g2", some "?", 0⟩]) ∧
    effectivePrefixFor [⟨"g1", none, 0⟩, ⟨"g2", some "?", 0⟩] "g3" =
      templateDefaultPrefix :=
  ⟨guildPrefixResolver_spec.1 [⟨"g1", none, 0⟩, ⟨"g2", some "?", 0⟩] "g1"
      ⟨"g1", none, 0⟩ (by decide),
   guildPrefixResolver_spec.2.1 [⟨"g1", none, 0⟩, ⟨"g2", some "?", 0⟩] "g3"
      (by decide),
   guildPrefixResolver_spec.2.2.2.1 [⟨"g1", none, 0⟩, ⟨"g2", some "?", 0⟩] "g3"
      (by decide)⟩

/-! ## Transactions -/

/-- One step of a transaction body: a Schema Store write made inside the
body, or a throw from the body itself. -/
inductive TxOp where
  | txCreate : List Guild → TxOp
  | txSetPrefixVal : String → Option String → TxOp
  | txDelete : String → TxOp
  | txThrow : Nat → TxOp

inductive TxErr where
  | nestedTransaction : TxErr
  | constraint : StoreErr → TxErr
  | thrown : Nat → TxErr
deriving DecidableEq

/-- One body step applied to the transaction's working state: writes update
it, a constraint violation or a throw raises an error. -/
def applyTxOp (s : Store) (op : TxOp) : Except TxErr Store :=
  match op with
  | TxOp.txCreate ds =>
    match create s ds with
    | Except.ok s' => Except.ok s'
    | Except.error e => Except.error (TxErr.constraint e)
  | TxOp.txSetPrefixVal gid p =>
    Except.ok (s.map (fun d => if d.guildId == gid then { d with prefixVal := p } else d))
  | TxOp.txDelete gid =>
    Except.ok (s.filter (fun d => !(d.guildId == gid)))
  | TxOp.txThrow c => Except.error (TxErr.thrown c)

/-- The transaction body run step by step on the session's working state,
stopping at the first error. -/
def runBody (s : Store) (body : List TxOp) : Except TxErr Store :=
  match body with
  | [] => Except.ok s
  | op :: rest =>
    match applyTxOp s op with
    | Except.ok s' => runBody s' rest
    | Except.error e => Except.error e

/-- Modelled from the spec: `useTransaction(body)` — absent framework code.
Opens a transaction (failing with `NestedTransaction` when one is already
open), runs the body's writes against a session state, commits them all on
normal return, rolls back and re-throws on any error from the body or any
call within it.  Returns the outcome together with the store visible to
readers outside the transaction afterwards. -/
def useTransaction (inTx : Bool) (s : Store) (body : List TxOp) :
    Except TxErr Store × Store :=
  if inTx then (Except.error TxErr.nestedTransaction, s)
  else
    match runBody s body with
    | Except.ok s' => (Except.ok s', s')
    | Except.error e => (Except.error e, s)

/-- C2: if the body returns normally every write inside it is committed;
if the body or any call inside it throws, every write is rolled back and
the error is re-thrown; an outside reader observes either all of the
transaction's writes or none of them, never a proper subset; and opening a
transaction while already inside one fails with `NestedTransaction`. -/
theorem useTransaction_atomic :
    (∀ (s : Store) (body : List TxOp) (s' : Store),
        runBody s body = Except.ok s' →
        useTransaction false s body = (Except.ok s', s')) ∧
    (∀ (s : Store) (body : List TxOp) (e : TxErr),
        runBody s body = Except.error e →
        useTransaction false s body = (Except.error e, s)) ∧
    (∀ (s : Store) (body : List TxOp),
        (useTransaction false s body).2 = s ∨
        ∃ s', runBody s body = Except.ok s' ∧
          (useTransaction false s body).2 = s') ∧
    (∀ (s : Store) (body : List TxOp),
        useTransaction true s body = (Except.error TxErr.nestedTransaction, s)) := by
  refine ⟨?_, ?_, ?_, fun s body => rfl⟩
  · intro s body s' h
    simp [useTransaction, h]
  · intro s body e h
    simp [useTransaction, h]
  · intro s body
    simp only [useTransaction, if_neg (by decide : ¬ (false = true))]
    cases h : runBody s body with
    | ok s' => exact Or.inr ⟨s', rfl, rfl⟩
    | error e => exact Or.inl rfl

/-- C2 witness: a body that creates a document for guild "t1" and then
throws leaves the store unchanged with the error re-thrown, while the same
body without the throw commits its write; a nested open fails. -/
theorem useTransaction_atomic_witness :
    useTransaction false [] [TxOp.txCreate [⟨"t1", none, 0⟩], TxOp.txThrow 42] =
      (Except.error (TxErr.thrown 42), []) ∧
    useTransaction false [] [TxOp.txCreate [⟨"t1", none, 0⟩]] =
      (Except.ok [⟨"t1", none, 0⟩], [⟨"t1", none, 0⟩]) ∧
    useTransaction true [] [TxOp.txCreate [⟨"t1", none, 0⟩]] =
      (Except.error TxErr.nestedTransaction, []) :=
  ⟨useTransaction_atomic.2.1 [] [TxOp.txCreate [⟨"t1", none, 0⟩], TxOp.txThrow 42]
      (TxErr.thrown 42) rfl,
   useTransaction_atomic.1 [] [TxOp.txCreate [⟨"t1", none, 0⟩]]
      [⟨"t1", none, 0⟩] rfl,
   useTransaction_atomic.2.2.2 [] [TxOp.txCreate [⟨"t1", none, 0⟩]]⟩

/-! ## Permission evaluator -/

/-- A declarative permission spec, from the documentation's full
permissions reference: required Discord permissions for the user and for
the bot, required roles, role blacklist, user whitelist, user blacklist,
and context/identity restrictions. -/
structure PermissionSpec where
  user : List Nat
  bot : List Nat
  roles : List String
  roleBlacklist : List String
  userWhitelist : List String
  userBlacklist : List String
  guildOnly : Bool
  guildOwnerOnly : Bool
  botOwnerOnly : Bool
  botStaffOnly : Bool
deriving DecidableEq

/-- The caller's identity and context at evaluation time. -/
structure CallerContext where
  userId : String
  guildId : Option String
  guildOwnerId : Option String
  memberRoles : List String
  userPerms : List Nat
  botPerms : List Nat
  botOwnerId : String
  superUsers : List String
deriving DecidableEq

inductive DenyReason where
  | contextMismatch : DenyReason
  | identityDenied : DenyReason
  | blacklisted : DenyReason
  | notWhitelisted : DenyReason
  | missingRole : DenyReason
  | missingPermission : Nat → DenyReason
deriving DecidableEq

inductive PermResult where
  | allow : PermResult
  | deny : DenyReason → PermResult
deriving DecidableEq

/-- Check 1 — context: guild-only and guild-owner-only. -/
def contextOk (spec : PermissionSpec) (ctx : CallerContext) : Bool :=
  (!spec.guildOnly || ctx.guildId.isSome) &&
  (!spec.guildOwnerOnly || ctx.guildOwnerId == some ctx.userId)

/-- Check 2 — identity: bot-owner-only and bot-staff-only (owner id plus
the superuser set). -/
def identityOk (spec : PermissionSpec) (ctx : CallerContext) : Bool :=
  (!spec.botOwnerOnly || ctx.userId == ctx.botOwnerId) &&
  (!spec.botStaffOnly ||
    (ctx.userId == ctx.botOwnerId || ctx.superUsers.contains ctx.userId))

/-- Check 3 — blacklists: user blacklist and role blacklist. -/
def blacklistOk (spec : PermissionSpec) (ctx : CallerContext) : Bool :=
  !(spec.userBlacklist.contains ctx.userId) &&
  !(ctx.memberRoles.any (fun r => spec.roleBlacklist.contains r))

/-- Check 4a — user whitelist: if non-empty, the caller must be on it. -/
def userWhitelistOk (spec : PermissionSpec) (ctx : CallerContext) : Bool :=
  spec.userWhitelist.isEmpty || spec.userWhitelist.contains ctx.userId

/-- Check 4b — required roles: if non-empty, the caller needs at least
one. -/
def rolesOk (spec : PermissionSpec) (ctx : CallerContext) : Bool :=
  spec.roles.isEmpty || ctx.memberRoles.any (fun r => spec.roles.contains r)

/-- First required Discord permission the holder is missing, if any. -/
def firstMissing (required held : List Nat) : Option Nat :=
  required.find? (fun p => !(held.contains p))

/-- Modelled from the spec: `evaluate(permissionSpec, callerContext)`,
absent framework code.  Runs the checks in the fixed order context →
identity → blacklist → whitelist → Discord permissions (caller side then
bot side) and returns the Deny of the first failing check, short-circuiting
the rest; Allow when every check passes. -/
def evaluate (spec : PermissionSpec) (ctx : CallerContext) : PermResult :=
  if !(contextOk spec ctx) then PermResult.deny DenyReason.contextMismatch
  else if !(identityOk spec ctx) then PermResult.deny DenyReason.identityDenied
  else if !(blacklistOk spec ctx) then PermResult.deny DenyReason.blacklisted
  else if !(userWhitelistOk spec ctx) then PermResult.deny DenyReason.notWhitelisted
  else if !(rolesOk spec ctx) then PermResult.deny DenyReason.missingRole
  else
    match firstMissing spec.user ctx.userPerms with
    | some p => PermResult.deny (DenyReason.missingPermission p)
    | none =>
      match firstMissing spec.bot ctx.botPerms with
      | some p => PermResult.deny (DenyReason.missingPermission p)
      | none => PermResult.allow

/-- The permission spec of the template's prefix `ping` command:
`permissions: { guildOnly: true }`, every other field absent. -/
def pingPermissions : PermissionSpec :=
  { user := [], bot := [], roles := [], roleBlacklist := [],
    userWhitelist := [], userBlacklist := [],
    guildOnly := true, guildOwnerOnly := false,
    botOwnerOnly := false, botStaffOnly := false }

/-- C5: evaluation runs context → identity → blacklist → whitelist →
Discord-permission checks, returns the Deny of the first failing check
short-circuiting the rest, and in particular a caller matched by a user
blacklist entry is denied `Blacklisted` even when they also match the user
whitelist. -/
theorem evaluate_order :
    (∀ spec ctx, contextOk spec ctx = false →
        evaluate spec ctx = PermResult.deny DenyReason.contextMismatch) ∧
    (∀ spec ctx, contextOk spec ctx = true → identityOk spec ctx = false →
        evaluate spec ctx = PermResult.deny DenyReason.identityDenied) ∧
    (∀ spec ctx, contextOk spec ctx = true → identityOk spec ctx = true →
        blacklistOk spec ctx = false →
        evaluate spec ctx = PermResult.deny DenyReason.blacklisted) ∧
    (∀ spec ctx, contextOk spec ctx = true → identityOk spec ctx = true →
        blacklistOk spec ctx = true → userWhitelistOk spec ctx = false →
        evaluate spec ctx = PermResult.deny DenyReason.notWhitelisted) ∧
    (∀ spec ctx, contextOk spec ctx = true → identityOk spec ctx = true →
        blacklistOk spec ctx = true → userWhitelistOk spec ctx = true →
        rolesOk spec ctx = false →
        evaluate spec ctx = PermResult.deny DenyReason.missingRole) ∧
    (∀ spec ctx p, contextOk spec ctx = true → identityOk spec ctx = true →
        blacklistOk spec ctx = true → userWhitelistOk spec ctx = true →
        rolesOk spec ctx = true → firstMissing spec.user ctx.userPerms = some p →
        evaluate spec ctx = PermResult.deny (DenyReason.missingPermission p)) ∧
    (∀ spec ctx, contextOk spec ctx = true → identityOk spec ctx = true →
        spec.userBlacklist.contains ctx.userId = true →
        spec.userWhitelist.contains ctx.userId = true →
        evaluate spec ctx = PermResult.deny DenyReason.blacklisted) := by
  refine ⟨?_, ?_, ?_, ?_, ?_, ?_, ?_⟩
  · intro spec ctx h
    simp [evaluate, h]
  · intro spec ctx h1 h2
    simp [evaluate, h1, h2]
  · intro spec ctx h1 h2 h3
    simp [evaluate, h1, h2, h3]
  · intro spec ctx h1 h2 h3 h4
    simp [evaluate, h1, h2, h3, h4]
  · intro spec ctx h1 h2 h3 h4 h5
    simp [evaluate, h1, h2, h3, h4, h5]
  · intro spec ctx p h1 h2 h3 h4 h5 h6
    simp [evaluate, h1, h2, h3, h4, h5, h6]
  · intro spec ctx h1 h2 hbl _
    have h3 : blacklistOk spec ctx = false := by
      unfold blacklistOk
      rw [hbl]
      rfl
    simp [evaluate, h1, h2, h3]

/-- C5 witness: a caller on both the user blacklist and the user whitelist
of a guild command, inside a guild, is denied `Blacklisted`. -/
theorem evaluate_order_witness :
    evaluate
      { user := [], bot := [], roles := [], roleBlacklist := [],
        userWhitelist := ["u1"], userBlacklist := ["u1"],
        guildOnly := true, guildOwnerOnly := false,
        botOwnerOnly := false, botStaffOnly := false }
      { userId := "u1", guildId := some "g", guildOwnerId := some "o",
        memberRoles := [], userPerms := [], botPerms := [],
        botOwnerId := "b", superUsers := [] } =
      PermResult.deny DenyReason.blacklisted :=
  evaluate_order.2.2.2.2.2.2
    { user := [], bot := [], roles := [], roleBlacklist := [],
      userWhitelist := ["u1"], userBlacklist := ["u1"],
      guildOnly := true, guildOwnerOnly := false,
      botOwnerOnly := false, botStaffOnly := false }
    { userId := "u1", guildId := some "g", guildOwnerId := some "o",
      memberRoles := [], userPerms := [], botPerms := [],
      botOwnerId := "b", superUsers := [] }
    (by decide) (by decide) (by decide) (by decide)

/-- C6: for every permission spec with `guildOnly: true` — in particular
the template ping command's spec — and every caller context whose
`guildId` is `null` (a direct-message context), evaluation denies with
`ContextMismatch`, regardless of every other field. -/
theorem guildOnly_dm_denied :
    (∀ (spec : PermissionSpec) (ctx : CallerContext),
        spec.guildOnly = true → ctx.guildId = none →
        evaluate spec ctx = PermResult.deny DenyReason.contextMismatch) ∧
    (∀ ctx : CallerContext, ctx.guildId = none →
        evaluate pingPermissions ctx = PermResult.deny DenyReason.contextMismatch) := by
  have main : ∀ (spec : PermissionSpec) (ctx : CallerContext),
      spec.guildOnly = true → ctx.guildId = none →
      evaluate spec ctx = PermResult.deny DenyReason.contextMismatch := by
    intro spec ctx hg hid
    have hctx : contextOk spec ctx = false := by
      simp [contextOk, hg, hid]
    simp [evaluate, hctx]
  exact ⟨main, fun ctx h => main pingPermissions ctx rfl h⟩

/-- C6 witness: a direct-message context (guildId null) evaluated against
the ping command's spec — and against a spec with every other restriction
enabled — is denied `ContextMismatch`. -/
theorem guildOnly_dm_denied_witness :
    evaluate pingPermissions
      { userId := "u1", guildId := none, guildOwnerId := none,
        memberRoles := ["r"], userPerms := [8], botPerms := [8],
        botOwnerId := "u1", superUsers := ["u1"] } =
      PermResult.deny DenyReason.contextMismatch :=
  guildOnly_dm_denied.2
    { userId := "u1", guildId := none, guildOwnerId := none,
      memberRoles := ["r"], userPerms := [8], botPerms := [8],
      botOwnerId := "u1", superUsers := ["u1"] } rfl

/-! ## Event dispatcher: `once` definitions -/

/-- An event definition as registered with the dispatcher: identifier,
trigger binding, `enabled` and `once` flags. -/
structure EventDef where
  defId : Nat
  trigger : String
  enabled : Bool
  once : Bool
deriving DecidableEq

/-- Modelled from the spec: one delivery of a gateway trigger.  Every
enabled definition bound to the trigger runs; a `once` definition is
deregistered atomically with its run (the spec requires the deregistration
to happen-before any later delivery is dispatched to it).  Returns the
registry after the delivery together with the ids that ran. -/
def dispatchTrigger (reg : List EventDef) (tr : String) :
    List EventDef × List Nat :=
  match reg with
  | [] => ([], [])
  | d :: rest =>
    let r := dispatchTrigger rest tr
    if d.trigger == tr && d.enabled then
      if d.once then (r.1, d.defId :: r.2)
      else (d :: r.1, d.defId :: r.2)
    else (d :: r.1, r.2)

/-- A sequence of deliveries (any interleaving order of near-simultaneous
events), threading the registry; collects every executed id. -/
def runDeliveries (reg : List EventDef) (trs : List String) :
    List EventDef × List Nat :=
  match trs with
  | [] => (reg, [])
  | tr :: rest =>
    let r := dispatchTrigger reg tr
    let r' := runDeliveries r.1 rest
    (r'.1, r.2 ++ r'.2)

/-- How many registered definitions carry this id. -/
def occId (reg : List EventDef) (i : Nat) : Nat :=
  reg.countP (fun d => d.defId == i)

/-- How often this id occurs in a run log. -/
def ranCount (l : List Nat) (i : Nat) : Nat :=
  l.countP (fun j => j == i)

theorem occId_cons (d : EventDef) (reg : List EventDef) (i : Nat) :
    occId (d :: reg) i = occId reg i + (if (d.defId == i) = true then 1 else 0) := by
  simp [occId, List.countP_cons]

theorem ranCount_cons (j : Nat) (l : List Nat) (i : Nat) :
    ranCount (j :: l) i = ranCount l i + (if (j == i) = true then 1 else 0) := by
  simp [ranCount, List.countP_cons]

theorem dispatchTrigger_once_occ (i : Nat) (tr : String) :
    ∀ reg : List EventDef, (∀ d ∈ reg, d.defId = i → d.once = true) →
      ranCount (dispatchTrigger reg tr).2 i + occId (dispatchTrigger reg tr).1 i ≤
        occId reg i ∧
      (∀ d ∈ (dispatchTrigger reg tr).1, d.defId = i → d.once = true) := by
  intro reg
  induction reg with
  | nil => intro _; exact ⟨by simp [dispatchTrigger, ranCount, occId], by simp [dispatchTrigger]⟩
  | cons d rest ih =>
    intro hall
    have hrest := ih (fun e he hi => hall e (List.mem_cons_of_mem d he) hi)
    simp only [dispatchTrigger]
    by_cases hm : (d.trigger == tr && d.enabled) = true
    · rw [if_pos hm]
      by_cases ho : d.once = true
      · rw [if_pos ho]
        refine ⟨?_, fun e he hi => hrest.2 e he hi⟩
        have h1 := hrest.1
        dsimp only
        rw [ranCount_cons, occId_cons]
        by_cases hi : (d.defId == i) = true
        · rw [if_pos hi]
          omega
        · rw [if_neg hi]
          omega
      · rw [if_neg ho]
        have ho' : d.once = false := by
          cases h : d.once with
          | false => rfl
          | true => exact absurd h ho
        have hdi : (d.defId == i) = false := by
          cases h : (d.defId == i) with
          | false => rfl
          | true =>
            have := hall d (List.mem_cons_self d rest) (by simpa using h)
            rw [this] at ho'
            exact Bool.noConfusion ho'
        constructor
        · have h1 := hrest.1
          dsimp only
          rw [ranCount_cons, occId_cons, occId_cons]
          rw [if_neg (by simp [hdi])]
          omega
        · intro e he hi
          rcases List.mem_cons.mp he with h | h
          · subst h
            exact absurd hi (by simpa using hdi)
          · exact hrest.2 e h hi
    · rw [if_neg hm]
      constructor
      · have h1 := hrest.1
        dsimp only
        rw [occId_cons, occId_cons]
        by_cases hi : (d.defId == i) = true
        · rw [if_pos hi]
          omega
        · rw [if_neg hi]
          omega
      · intro e he hi
        rcases List.mem_cons.mp he with h | h
        · subst h
          exact hall e (List.mem_cons_self e rest) hi
        · exact hrest.2 e h hi

theorem ranCount_append (l1 l2 : List Nat) (i : Nat) :
    ranCount (l1 ++ l2) i = ranCount l1 i + ranCount l2 i := by
  simp [ranCount, List.countP_append]

theorem runDeliveries_once_occ (i : Nat) :
    ∀ (trs : List String) (reg : List EventDef),
      (∀ d ∈ reg, d.defId = i → d.once = true) →
      ranCount (runDeliveries reg trs).2 i +
          occId (runDeliveries reg trs).1 i ≤ occId reg i ∧
      (∀ d ∈ (runDeliveries reg trs).1, d.defId = i → d.once = true) := by
  intro trs
  induction trs with
  | nil =>
    intro reg hall
    exact ⟨by simp [runDeliveries, ranCount], by simpa [runDeliveries] using hall⟩
  | cons tr rest ih =>
    intro reg hall
    have hstep := dispatchTrigger_once_occ i tr reg hall
    have hrec := ih (dispatchTrigger reg tr).1 hstep.2
    simp only [runDeliveries]
    rw [ranCount_append]
    exact ⟨by omega, hrec.2⟩

/-- C8: an event definition with `once: true` executes at most once per
process lifetime — across any sequence of deliveries of its trigger (any
interleaving order of near-simultaneous events), provided it is registered
at most once and every registered definition carrying its id is `once`,
its id appears at most once in the combined run log, because the
dispatcher deregisters it atomically with its first run, before any later
delivery is dispatched to it. -/
theorem once_fires_at_most_once (reg : List EventDef) (trs : List String)
    (i : Nat) (hocc : occId reg i ≤ 1)
    (honce : ∀ d ∈ reg, d.defId = i → d.once = true) :
    ranCount (runDeliveries reg trs).2 i ≤ 1 := by
  have h := runDeliveries_once_occ i trs reg honce
  omega

/-- C8 witness: a single `once` ready-handler delivered three times in a
row runs at most once (here: exactly once, the later deliveries find it
deregistered). -/
theorem once_fires_at_most_once_witness :
    ranCount (runDeliveries [⟨1, "ready", true, true⟩]
      ["ready", "ready", "ready"]).2 1 ≤ 1 :=
  once_fires_at_most_once [⟨1, "ready", true, true⟩] ["ready", "ready", "ready"]
    1 (by decide)
    (by intro d hd hi
        simp only [List.mem_singleton] at hd
        rw [hd])

/-! ## Config merger -/

/-- A configuration value: a scalar, a sequence, or a plain mapping given
as an association list of fields (a JavaScript object literal; its keys
are distinct, which `wfCVal` below records). -/
inductive CVal where
  | scl : Nat → CVal
  | arr : List CVal → CVal
  | obj : List (String × CVal) → CVal

/-- First field with the given key, if any. -/
def lookupField (k : String) : List (String × CVal) → Option CVal
  | [] => none
  | kv :: fs => if kv.1 = k then some kv.2 else lookupField k fs

theorem lookupField_mem {k : String} :
    ∀ {b : List (String × CVal)} {w : CVal},
      lookupField k b = some w → (k, w) ∈ b := by
  intro b
  induction b with
  | nil => intro w h; exact absurd h (by simp [lookupField])
  | cons kv fs ih =>
    intro w h
    simp only [lookupField] at h
    by_cases hk : kv.1 = k
    · rw [if_pos hk] at h
      have hkv : kv = (k, w) := by
        cases kv with
        | mk k1 v1 =>
          simp only at hk
          simp only [Option.some.injEq] at h
          rw [hk, h]
      rw [hkv]
      exact List.mem_cons_self _ _
    · rw [if_neg hk] at h
      exact List.mem_cons_of_mem kv (ih h)

theorem sizeOf_lookupField {k : String} {b : List (String × CVal)} {w : CVal}
    (h : lookupField k b = some w) : sizeOf w < sizeOf b := by
  have hmem := lookupField_mem h
  have h1 : sizeOf (k, w) ≤ sizeOf b := le_of_lt (List.sizeOf_lt_of_mem hmem)
  have h2 : sizeOf (k, w) = 1 + sizeOf k + sizeOf w := rfl
  omega

mutual

/-- Modelled from the spec: the config merge of two layers, the second
taking precedence — deep-merge for plain mappings, override for sequences
and scalars. -/
def merge : CVal → CVal → CVal
  | CVal.obj a, CVal.obj b =>
    CVal.obj (mergeInto a b ++
      b.filter (fun kv => (lookupField kv.1 a).isNone))
  | _, v => v
termination_by a b => sizeOf a + sizeOf b
decreasing_by
  simp only [CVal.obj.sizeOf_spec]
  omega

/-- The lower layer's fields, each deep-merged with the higher layer's
field of the same key, when present. -/
def mergeInto : List (String × CVal) → List (String × CVal) →
    List (String × CVal)
  | [], _ => []
  | (k, v) :: rest, b =>
    (k, match h : lookupField k b with
        | some w => merge v w
        | none => v) :: mergeInto rest b
termination_by a b => sizeOf a + sizeOf b
decreasing_by
  · have := sizeOf_lookupField h
    simp only [List.cons.sizeOf_spec, Prod.mk.sizeOf_spec]
    omega
  · simp only [List.cons.sizeOf_spec]
    omega

end

/-- Modelled from the spec: the four-layer merge, ascending precedence
defaults < global < type-level < local. -/
def merge4 (defaults global typeLevel local' : CVal) : CVal :=
  merge (merge (merge defaults global) typeLevel) local'

/-- Keys are pairwise distinct (what a JavaScript object guarantees). -/
def nodupKeys : List (String × CVal) → Bool
  | [] => true
  | kv :: fs => (lookupField kv.1 fs).isNone && nodupKeys fs

mutual

/-- A well-formed configuration value: every mapping in it has pairwise
distinct keys. -/
def wfCVal : CVal → Bool
  | CVal.scl _ => true
  | CVal.arr _ => true
  | CVal.obj fs => nodupKeys fs && wfFields fs
termination_by v => sizeOf v

def wfFields : List (String × CVal) → Bool
  | [] => true
  | (_, v) :: fs => wfCVal v && wfFields fs
termination_by l => sizeOf l
decreasing_by
  · simp only [List.cons.sizeOf_spec, Prod.mk.sizeOf_spec]
    omega
  · simp only [List.cons.sizeOf_spec]
    omega

end

mutual

/-- Compatible layer shapes: wherever both layers carry a value at the
same path, the two values are both mappings or both non-mappings. -/
def compat : CVal → CVal → Bool
  | CVal.obj a, CVal.obj b => compatFields a b
  | CVal.obj _, _ => false
  | _, CVal.obj _ => false
  | _, _ => true
termination_by a b => sizeOf a + sizeOf b

def compatFields : List (String × CVal) → List (String × CVal) → Bool
  | [], _ => true
  | (k, v) :: rest, b =>
    (match h : lookupField k b with
     | some w => compat v w
     | none => true) && compatFields rest b
termination_by a b => sizeOf a + sizeOf b
decreasing_by
  · have := sizeOf_lookupField h
    simp only [List.cons.sizeOf_spec, Prod.mk.sizeOf_spec]
    omega
  · simp only [List.cons.sizeOf_spec]
    omega

end

/-- Merge a value with an optional overriding value. -/
def oMerge (v : CVal) : Option CVal → CVal
  | some w => merge v w
  | none => v

/-- The deep-merged field list of two mappings. -/
def mergeFields (a b : List (String × CVal)) : List (String × CVal) :=
  mergeInto a b ++ b.filter (fun kv => (lookupField kv.1 a).isNone)

theorem merge_obj_obj (a b : List (String × CVal)) :
    merge (CVal.obj a) (CVal.obj b) = CVal.obj (mergeFields a b) := by
  rw [merge, mergeFields]

theorem merge_scl_right (x : CVal) (n : Nat) :
    merge x (CVal.scl n) = CVal.scl n := by
  cases x <;> simp [merge]

theorem merge_arr_right (x : CVal) (l : List CVal) :
    merge x (CVal.arr l) = CVal.arr l := by
  cases x <;> simp [merge]

theorem merge_scl_left (n : Nat) (y : CVal) :
    merge (CVal.scl n) y = y := by
  cases y <;> simp [merge]

theorem merge_arr_left (l : List CVal) (y : CVal) :
    merge (CVal.arr l) y = y := by
  cases y <;> simp [merge]

theorem mergeInto_nil (b : List (String × CVal)) : mergeInto [] b = [] := by
  rw [mergeInto]

theorem mergeInto_cons (k : String) (v : CVal)
    (rest b : List (String × CVal)) :
    mergeInto ((k, v) :: rest) b =
      (k, oMerge v (lookupField k b)) :: mergeInto rest b := by
  rw [mergeInto]
  split
  · next w h =>
    rw [h]
    rfl
  · next h =>
    rw [h]
    rfl

theorem lookupField_append (k : String) (l1 l2 : List (String × CVal)) :
    lookupField k (l1 ++ l2) =
      match lookupField k l1 with
      | some v => some v
      | none => lookupField k l2 := by
  induction l1 with
  | nil => simp [lookupField]
  | cons kv rest ih =>
    by_cases hk : kv.1 = k
    · simp [lookupField, hk]
    · simp only [List.cons_append, lookupField, if_neg hk]
      exact ih

theorem lookupField_mergeInto (k : String) (a b : List (String × CVal)) :
    lookupField k (mergeInto a b) =
      (lookupField k a).map (fun v => oMerge v (lookupField k b)) := by
  induction a with
  | nil => simp [mergeInto_nil, lookupField]
  | cons kv rest ih =>
    cases kv with
    | mk k1 v1 =>
      rw [mergeInto_cons]
      by_cases hk : k1 = k
      · simp [lookupField, hk]
      · simp only [lookupField, if_neg hk]
        exact ih

theorem lookupField_filterKey (k : String) (p : String → Bool)
    (l : List (String × CVal)) :
    lookupField k (l.filter (fun kv => p kv.1)) =
      if p k then lookupField k l else none := by
  induction l with
  | nil => simp [lookupField]
  | cons kv rest ih =>
    simp only [List.filter_cons]
    by_cases hp : p kv.1 = true
    · rw [if_pos hp]
      by_cases hk : kv.1 = k
      · rw [hk] at hp
        simp [lookupField, hk, hp]
      · simp only [lookupField, if_neg hk]
        exact ih
    · rw [if_neg hp]
      by_cases hk : kv.1 = k
      · rw [ih]
        have hpk : p k = false := by
          rw [← hk]
          simpa using hp
        simp [hpk, lookupField, hk]
      · simp only [lookupField, if_neg hk]
        exact ih

theorem mergeInto_append (l1 l2 b : List (String × CVal)) :
    mergeInto (l1 ++ l2) b = mergeInto l1 b ++ mergeInto l2 b := by
  induction l1 with
  | nil => simp [mergeInto_nil]
  | cons kv rest ih =>
    cases kv with
    | mk k v =>
      rw [List.cons_append, mergeInto_cons, mergeInto_cons, List.cons_append, ih]

theorem mergeInto_filterKey (p : String → Bool) (b c : List (String × CVal)) :
    mergeInto (b.filter (fun kv => p kv.1)) c =
      (mergeInto b c).filter (fun kv => p kv.1) := by
  induction b with
  | nil => simp [mergeInto_nil]
  | cons kv rest ih =>
    cases kv with
    | mk k v =>
      simp only [List.filter_cons]
      by_cases hp : p k = true
      · rw [if_pos hp, mergeInto_cons, mergeInto_cons, List.filter_cons,
          if_pos hp, ih]
      · rw [if_neg hp, mergeInto_cons, List.filter_cons, if_neg hp, ih]

/-- Compatibility of a value with an optional overriding value. -/
def oCompat (v : CVal) : Option CVal → Bool
  | some w => compat v w
  | none => true

theorem compatFields_cons (k : String) (v : CVal)
    (rest b : List (String × CVal)) :
    compatFields ((k, v) :: rest) b =
      (oCompat v (lookupField k b) && compatFields rest b) := by
  rw [compatFields]
  split
  · next w h =>
    rw [h]
    rfl
  · next h =>
    rw [h]
    rfl

theorem wfCVal_obj (fs : List (String × CVal)) :
    wfCVal (CVal.obj fs) = (nodupKeys fs && wfFields fs) := by
  rw [wfCVal]

theorem wfFields_cons (k : String) (v : CVal) (fs : List (String × CVal)) :
    wfFields ((k, v) :: fs) = (wfCVal v && wfFields fs) := by
  rw [wfFields]

theorem lookupField_isSome_of_mem {k : String} {v : CVal} :
    ∀ {fs : List (String × CVal)}, (k, v) ∈ fs →
      (lookupField k fs).isSome = true := by
  intro fs
  induction fs with
  | nil => intro h; exact absurd h (List.not_mem_nil _)
  | cons kv rest ih =>
    intro h
    simp only [lookupField]
    by_cases hk : kv.1 = k
    · rw [if_pos hk]
      rfl
    · rw [if_neg hk]
      rcases List.mem_cons.mp h with h1 | h1
      · exact absurd (congrArg Prod.fst h1.symm) hk
      · exact ih h1

theorem lookupField_of_mem_nodup {k : String} {v : CVal} :
    ∀ {fs : List (String × CVal)}, nodupKeys fs = true → (k, v) ∈ fs →
      lookupField k fs = some v := by
  intro fs
  induction fs with
  | nil => intro _ h; exact absurd h (List.not_mem_nil _)
  | cons kv rest ih =>
    intro hnd h
    simp only [nodupKeys, Bool.and_eq_true] at hnd
    simp only [lookupField]
    rcases List.mem_cons.mp h with h1 | h1
    · rw [← h1]
      simp
    · by_cases hk : kv.1 = k
      · exfalso
        have hsome := lookupField_isSome_of_mem h1
        rw [hk] at hnd
        rw [Option.isNone_iff_eq_none.mp hnd.1] at hsome
        exact Bool.noConfusion hsome
      · rw [if_neg hk]
        exact ih hnd.2 h1

theorem wfFields_mem {k : String} {v : CVal} :
    ∀ {fs : List (String × CVal)}, wfFields fs = true → (k, v) ∈ fs →
      wfCVal v = true := by
  intro fs
  induction fs with
  | nil => intro _ h; exact absurd h (List.not_mem_nil _)
  | cons kv rest ih =>
    intro hwf h
    cases kv with
    | mk k1 v1 =>
      rw [wfFields_cons, Bool.and_eq_true] at hwf
      rcases hwf with ⟨hv1, hrest⟩
      rcases List.mem_cons.mp h with h1 | h1
      · rw [show v = v1 from congrArg Prod.snd h1]
        exact hv1
      · exact ih hrest h1

theorem sizeOf_val_of_mem {k : String} {v : CVal}
    {fs : List (String × CVal)} (h : (k, v) ∈ fs) : sizeOf v < sizeOf fs := by
  have h1 : sizeOf (k, v) ≤ sizeOf fs := le_of_lt (List.sizeOf_lt_of_mem h)
  have h2 : sizeOf (k, v) = 1 + sizeOf k + sizeOf v := rfl
  omega

theorem mergeInto_self_of (full : List (String × CVal)) :
    ∀ sub : List (String × CVal),
      (∀ k v, (k, v) ∈ sub → lookupField k full = some v ∧ merge v v = v) →
      mergeInto sub full = sub := by
  intro sub
  induction sub with
  | nil => intro _; rw [mergeInto_nil]
  | cons kv rest ih =>
    intro hall
    cases kv with
    | mk k v =>
      have hk := hall k v (List.mem_cons_self _ _)
      rw [mergeInto_cons, hk.1]
      simp only [oMerge, hk.2]
      rw [ih (fun k' v' hm => hall k' v' (List.mem_cons_of_mem _ hm))]

theorem filter_self_none (fs : List (String × CVal)) :
    fs.filter (fun kv => (lookupField kv.1 fs).isNone) = [] := by
  apply List.filter_eq_nil_iff.mpr
  intro kv hm
  cases kv with
  | mk k v =>
    have := lookupField_isSome_of_mem hm
    simp only
    intro hcon
    rw [Option.isNone_iff_eq_none.mp hcon] at this
    exact Bool.noConfusion this

theorem merge_self_aux :
    ∀ n, ∀ v : CVal, sizeOf v < n → wfCVal v = true → merge v v = v := by
  intro n
  induction n with
  | zero => intro v h; omega
  | succ n ih =>
    intro v hsz hwf
    cases v with
    | scl m => rw [merge_scl_left]
    | arr l => rw [merge_arr_left]
    | obj fs =>
      rw [merge_obj_obj, mergeFields, filter_self_none, List.append_nil]
      rw [wfCVal_obj, Bool.and_eq_true] at hwf
      have hm : mergeInto fs fs = fs := by
        apply mergeInto_self_of
        intro k v hmem
        refine ⟨lookupField_of_mem_nodup hwf.1 hmem, ?_⟩
        have hszv : sizeOf v < sizeOf fs := sizeOf_val_of_mem hmem
        have hsz2 : sizeOf fs < sizeOf (CVal.obj fs) := by
          simp only [CVal.obj.sizeOf_spec]
          omega
        exact ih v (by omega) (wfFields_mem hwf.2 hmem)
      rw [hm]

/-- Deep merge is idempotent on well-formed values. -/
theorem merge_self (v : CVal) (hwf : wfCVal v = true) : merge v v = v :=
  merge_self_aux (sizeOf v + 1) v (Nat.lt_succ_self _) hwf

theorem compat_obj_obj (a b : List (String × CVal)) :
    compat (CVal.obj a) (CVal.obj b) = compatFields a b := by
  rw [compat]

theorem compat_obj_right {y : CVal} {fb : List (String × CVal)}
    (h : compat y (CVal.obj fb) = true) :
    ∃ fa, y = CVal.obj fa := by
  cases y with
  | scl n => simp [compat] at h
  | arr l => simp [compat] at h
  | obj fa => exact ⟨fa, rfl⟩

theorem compatFields_mem {k : String} {v : CVal} :
    ∀ {a b : List (String × CVal)}, compatFields a b = true → (k, v) ∈ a →
      oCompat v (lookupField k b) = true := by
  intro a
  induction a with
  | nil => intro b _ h; exact absurd h (List.not_mem_nil _)
  | cons kv rest ih =>
    intro b hc h
    cases kv with
    | mk k1 v1 =>
      rw [compatFields_cons, Bool.and_eq_true] at hc
      rcases List.mem_cons.mp h with h1 | h1
      · cases Prod.mk.injEq .. ▸ h1 with
        | _ =>
          have hk : k = k1 := congrArg Prod.fst h1
          have hv : v = v1 := congrArg Prod.snd h1
          rw [hk, hv]
          exact hc.1
      · exact ih hc.2 h1

theorem lookupField_mergeFields (k : String) (a b : List (String × CVal)) :
    lookupField k (mergeFields a b) =
      match lookupField k a with
      | some v => some (oMerge v (lookupField k b))
      | none => lookupField k b := by
  rw [mergeFields, lookupField_append, lookupField_mergeInto]
  cases h : lookupField k a with
  | some v => simp
  | none =>
    simp only [Option.map_none]
    rw [lookupField_filterKey k (fun k' => (lookupField k' a).isNone)]
    rw [h]
    rfl

theorem mergeInto_assoc_of (b c : List (String × CVal)) :
    ∀ a : List (String × CVal),
      (∀ k v w x, (k, v) ∈ a → lookupField k b = some w →
        lookupField k c = some x →
        merge (merge v w) x = merge v (merge w x)) →
      mergeInto (mergeInto a b) c = mergeInto a (mergeFields b c) := by
  intro a
  induction a with
  | nil => intro _; rw [mergeInto_nil, mergeInto_nil, mergeInto_nil]
  | cons kv rest ih =>
    intro hall
    cases kv with
    | mk k v =>
      rw [mergeInto_cons, mergeInto_cons, mergeInto_cons]
      rw [ih (fun k' v' w x hm => hall k' v' w x (List.mem_cons_of_mem _ hm))]
      congr 1
      rw [lookupField_mergeFields]
      cases hb : lookupField k b with
      | some w =>
        cases hc : lookupField k c with
        | some x =>
          simp only [oMerge]
          rw [hall k v w x (List.mem_cons_self _ _) hb hc]
        | none => simp [oMerge]
      | none =>
        cases hc : lookupField k c with
        | some x => simp [oMerge]
        | none => simp [oMerge]

theorem isNone_lookupField_mergeFields (k : String)
    (a b : List (String × CVal)) :
    (lookupField k (mergeFields a b)).isNone =
      ((lookupField k a).isNone && (lookupField k b).isNone) := by
  rw [lookupField_mergeFields]
  cases h : lookupField k a with
  | some v => rfl
  | none => simp

theorem mergeFields_assoc (fa fb fc : List (String × CVal))
    (hstep : ∀ k v w x, (k, v) ∈ fa → lookupField k fb = some w →
      lookupField k fc = some x →
      merge (merge v w) x = merge v (merge w x)) :
    mergeFields (mergeFields fa fb) fc = mergeFields fa (mergeFields fb fc) := by
  have e1 := mergeInto_assoc_of fb fc fa hstep
  rw [mergeFields] at e1
  rw [mergeFields, mergeFields, mergeFields, mergeFields]
  rw [mergeInto_append, e1,
    mergeInto_filterKey (fun k => (lookupField k fa).isNone) fb fc,
    List.filter_append, List.append_assoc]
  congr 1
  congr 1
  rw [List.filter_filter]
  apply List.filter_congr
  intro kv _
  have hiso := isNone_lookupField_mergeFields kv.1 fa fb
  rw [mergeFields] at hiso
  rw [hiso]

theorem merge_assoc_aux :
    ∀ n, ∀ a b c : CVal, sizeOf a + sizeOf b + sizeOf c < n →
      compat a b = true → compat b c = true → compat a c = true →
      merge (merge a b) c = merge a (merge b c) := by
  intro n
  induction n with
  | zero => intro a b c h; omega
  | succ n ih =>
    intro a b c hsz hab hbc hac
    cases c with
    | scl m => rw [merge_scl_right, merge_scl_right, merge_scl_right]
    | arr l => rw [merge_arr_right, merge_arr_right, merge_arr_right]
    | obj fc =>
      obtain ⟨fb, rfl⟩ := compat_obj_right hbc
      obtain ⟨fa, rfl⟩ := compat_obj_right hab
      rw [compat_obj_obj] at hab hbc hac
      rw [merge_obj_obj, merge_obj_obj, merge_obj_obj, merge_obj_obj]
      congr 1
      apply mergeFields_assoc
      intro k v w x hmv hw hx
      have hvw : compat v w = true := by
        have := compatFields_mem hab hmv
        rw [hw] at this
        exact this
      have hwx : compat w x = true := by
        have := compatFields_mem hbc (lookupField_mem hw)
        rw [hx] at this
        exact this
      have hvx : compat v x = true := by
        have := compatFields_mem hac hmv
        rw [hx] at this
        exact this
      have hsv : sizeOf v < sizeOf (CVal.obj fa) := by
        have := sizeOf_val_of_mem hmv
        simp only [CVal.obj.sizeOf_spec]
        omega
      have hsw : sizeOf w < sizeOf (CVal.obj fb) := by
        have := sizeOf_val_of_mem (lookupField_mem hw)
        simp only [CVal.obj.sizeOf_spec]
        omega
      have hsx : sizeOf x < sizeOf (CVal.obj fc) := by
        have := sizeOf_val_of_mem (lookupField_mem hx)
        simp only [CVal.obj.sizeOf_spec]
        omega
      exact ih v w x (by omega) hvw hwx hvx

/-- Deep merge is associative on pairwise-compatible layer shapes. -/
theorem merge_assoc (a b c : CVal) (hab : compat a b = true)
    (hbc : compat b c = true) (hac : compat a c = true) :
    merge (merge a b) c = merge a (merge b c) :=
  merge_assoc_aux (sizeOf a + sizeOf b + sizeOf c + 1) a b c
    (Nat.lt_succ_self _) hab hbc hac

/-- C4: the config merge is deterministic (equal inputs give structurally
equal output), idempotent (merging a well-formed value with itself gives it
back, so re-merging the same layers changes nothing), and associative for
compatible layer shapes, under deep-merge for plain mappings and override
for sequences and scalars. -/
theorem configMerge_det_idem_assoc :
    (∀ d g t l d' g' t' l', d = d' → g = g' → t = t' → l = l' →
        merge4 d g t l = merge4 d' g' t' l') ∧
    (∀ a : CVal, wfCVal a = true → merge a a = a) ∧
    (∀ a b c : CVal, compat a b = true → compat b c = true →
        compat a c = true → merge (merge a b) c = merge a (merge b c)) := by
  refine ⟨?_, merge_self, merge_assoc⟩
  intro d g t l d' g' t' l' hd hg ht hl
  rw [hd, hg, ht, hl]

/-- C4 witness: idempotence and associativity applied on concrete layers
(a nested mapping with a scalar, a mapping and a sequence; shapes
compatible). -/
theorem configMerge_det_idem_assoc_witness :
    merge (CVal.obj [("x", CVal.scl 1), ("n", CVal.obj [("y", CVal.scl 2)])])
        (CVal.obj [("x", CVal.scl 1), ("n", CVal.obj [("y", CVal.scl 2)])]) =
      CVal.obj [("x", CVal.scl 1), ("n", CVal.obj [("y", CVal.scl 2)])] ∧
    merge
        (merge (CVal.obj [("x", CVal.scl 1), ("n", CVal.obj [("y", CVal.scl 2)])])
          (CVal.obj [("n", CVal.obj [("z", CVal.scl 3)]), ("w", CVal.arr [CVal.scl 9])]))
        (CVal.obj [("x", CVal.scl 7), ("n", CVal.obj [("y", CVal.scl 5)])]) =
      merge (CVal.obj [("x", CVal.scl 1), ("n", CVal.obj [("y", CVal.scl 2)])])
        (merge (CVal.obj [("n", CVal.obj [("z", CVal.scl 3)]), ("w", CVal.arr [CVal.scl 9])])
          (CVal.obj [("x", CVal.scl 7), ("n", CVal.obj [("y", CVal.scl 5)])])) :=
  ⟨configMerge_det_idem_assoc.2.1
      (CVal.obj [("x", CVal.scl 1), ("n", CVal.obj [("y", CVal.scl 2)])])
      (by simp [wfCVal, wfFields, nodupKeys, lookupField]),
   configMerge_det_idem_assoc.2.2
      (CVal.obj [("x", CVal.scl 1), ("n", CVal.obj [("y", CVal.scl 2)])])
      (CVal.obj [("n", CVal.obj [("z", CVal.scl 3)]), ("w", CVal.arr [CVal.scl 9])])
      (CVal.obj [("x", CVal.scl 7), ("n", CVal.obj [("y", CVal.scl 5)])])
      (by simp [compat, compatFields, lookupField, oCompat])
      (by simp [compat, compatFields, lookupField, oCompat])
      (by simp [compat, compatFields, lookupField, oCompat])⟩

end Vimcord
